import Mathlib

/-!
Verification development for the pyEIA chunked concurrent fetch engine
(src/pyeia/api.py).  The Python source is shallowly embedded: pure helper
functions become Lean functions, the worker pool / queue machinery becomes
explicit bookkeeping over the nondeterministic dequeue order, and Python
integers become Int (Nat where the source value is provably nonnegative).
-/

set_option maxRecDepth 4000

/-- Recursion scaffold for `chunk` below: `fuel` is an upper bound on the
length of the remaining list (structural recursion on `fuel` keeps the
definition computable by the kernel).  Each step yields the slice
`l[i:i + n]` of the Python generator and continues with the rest. -/
def chunkAux {α : Type} (n : Nat) : Nat → List α → List (List α)
  | _, [] => []
  | 0, _ :: _ => []
  | fuel + 1, x :: xs => ((x :: xs).take n) :: chunkAux n fuel ((x :: xs).drop n)

/-- Embedding of `chunk(l, n)` (api.py lines 34-37):
`for i in range(0, len(l), n): yield l[i:i + n]`.
(The `n = 0` case raises ValueError in Python via `range`'s zero step; it is
unreachable from the repository's call sites, which all pass `n = 100`.) -/
def chunk {α : Type} (l : List α) (n : Nat) : List (List α) :=
  chunkAux n l.length l

theorem chunkAux_join {α : Type} (n : Nat) (hn : 1 ≤ n) :
    ∀ (fuel : Nat) (l : List α), l.length ≤ fuel → (chunkAux n fuel l).flatten = l := by
  intro fuel
  induction fuel with
  | zero =>
    intro l hl
    cases l with
    | nil => rfl
    | cons x xs => simp at hl
  | succ fuel ih =>
    intro l hl
    cases l with
    | nil => rfl
    | cons x xs =>
      have hlen : ((x :: xs).drop n).length ≤ fuel := by
        simp only [List.length_drop, List.length_cons]
        simp only [List.length_cons] at hl
        omega
      simp only [chunkAux, List.flatten_cons, ih _ hlen, List.take_append_drop]

theorem chunkAux_sizes {α : Type} (n : Nat) :
    ∀ (fuel : Nat) (l : List α), ∀ c ∈ chunkAux n fuel l, c.length ≤ n := by
  intro fuel
  induction fuel with
  | zero =>
    intro l c hc
    cases l with
    | nil => simp [chunkAux] at hc
    | cons x xs => simp [chunkAux] at hc
  | succ fuel ih =>
    intro l c hc
    cases l with
    | nil => simp [chunkAux] at hc
    | cons x xs =>
      simp only [chunkAux, List.mem_cons] at hc
      rcases hc with h | h
      · subst h
        simp
      · exact ih _ c h

theorem chunkAux_count {α : Type} (n : Nat) (hn : 1 ≤ n) :
    ∀ (fuel : Nat) (l : List α), l.length ≤ fuel →
      (chunkAux n fuel l).length = (l.length + n - 1) / n := by
  intro fuel
  induction fuel with
  | zero =>
    intro l hl
    cases l with
    | nil => simp [chunkAux, Nat.div_eq_of_lt (show n - 1 < n by omega)]
    | cons x xs => simp at hl
  | succ fuel ih =>
    intro l hl
    cases l with
    | nil => simp [chunkAux, Nat.div_eq_of_lt (show n - 1 < n by omega)]
    | cons x xs =>
      have hlen : ((x :: xs).drop n).length ≤ fuel := by
        simp only [List.length_drop, List.length_cons]
        simp only [List.length_cons] at hl
        omega
      simp only [chunkAux, List.length_cons, ih _ hlen, List.length_drop]
      have hr : xs.length + 1 + n - 1 = xs.length + n := by omega
      obtain ⟨m, rfl⟩ : ∃ m, n = m + 1 := ⟨n - 1, by omega⟩
      rw [hr, Nat.add_div_right _ (by omega)]
      rcases le_or_lt (xs.length + 1) (m + 1) with hle | hlt
      · have h1 : xs.length + 1 - (m + 1) + (m + 1) - 1 = m := by omega
        rw [h1, Nat.div_eq_of_lt (by omega), Nat.div_eq_of_lt (by omega)]
      · have h1 : xs.length + 1 - (m + 1) + (m + 1) - 1 = xs.length := by omega
        rw [h1]

/-- C6: count-bounded chunking produces ceil(totalIds / chunkSize) jobs, each
chunk has size at most chunkSize, and the concatenation of the chunks in order
equals the input list. -/
theorem chunking_correct {α : Type} (l : List α) (n : Nat) (h : 1 ≤ n) :
    (chunk l n).length = (l.length + n - 1) / n ∧
    (∀ c ∈ chunk l n, c.length ≤ n) ∧
    (chunk l n).flatten = l :=
  ⟨chunkAux_count n h l.length l le_rfl, chunkAux_sizes n l.length l,
    chunkAux_join n h l.length l le_rfl⟩

/-- C6 witness: a 250-element id list with chunk size 100 gives exactly 3
chunks of sizes 100, 100, 50, whose concatenation is the input. -/
theorem chunking_correct_witness :
    1 ≤ 100 ∧
    (chunk (List.range 250) 100).length = (250 + 100 - 1) / 100 ∧
    (chunk (List.range 250) 100).map List.length = [100, 100, 50] ∧
    (chunk (List.range 250) 100).flatten = List.range 250 := by
  refine ⟨by decide, ?_, by decide, ?_⟩
  · have h := chunking_correct (List.range 250) 100 (by decide)
    simpa using h.1
  · exact (chunking_correct (List.range 250) 100 (by decide)).2.2

/-! ## Worker pool and dispatch/collection engine (BaseQuery, api.py 40-88)

`BaseQuery.__init__` starts `consumers` daemon threads, each running
`_consume`: an endless loop of `job = self.queue.get()`, then
`result = self.parse(job)` and `self.results.put(result)` inside
`try`, with `except Exception as e: warn(e)`, then `self.queue.task_done()`.
`warn` is not imported anywhere in the module, so when `parse` raises, the
`except` branch itself raises `NameError`, which kills the worker thread
before `task_done()` is reached.

The embedding makes the relevant effects of one `_consume` iteration
explicit.  A job's network call (`parse`) is abstracted as an oracle
`J → Option P`: `some p` when the call returns payload `p`, `none` when it
raises (e.g. a transport error propagating out of `requests`). -/

/-- Observable effects of one iteration of `BaseQuery._consume` on one job. -/
structure ConsumeEffect (P : Type) where
  /-- the value put on `self.results`, if any -/
  result : Option P
  /-- whether `self.queue.task_done()` was reached -/
  taskDone : Bool
  /-- whether the worker thread was killed (`warn` is undefined: `NameError`) -/
  died : Bool
deriving DecidableEq

/-- One iteration of `BaseQuery._consume` (api.py 59-69) applied to one job. -/
def consume {J P : Type} (parse : J → Option P) (job : J) : ConsumeEffect P :=
  match parse job with
  | some r => { result := some r, taskDone := true, died := false }
  | none => { result := none, taskDone := false, died := true }

/-- The jobs actually pulled off the shared queue, in dequeue/completion
order.  `order` lists positions into the submitted job list; a schedule that
repeats or omits positions is expressible, though the theorems below
constrain it where the source's queue guarantees each job is handed to
exactly one worker. -/
def dequeued {J : Type} (jobs : List J) (order : List Nat) : List J :=
  order.filterMap (fun i => jobs[i]?)

/-- Aggregate state of the engine after the workers have processed the
dequeued jobs: contents of `self.results` (in completion order), number of
`task_done()` calls, and number of workers killed by the `NameError`. -/
structure PoolRun (P : Type) where
  results : List P
  tasksDone : Nat
  deadWorkers : Nat
deriving DecidableEq

/-- Run the fixed worker pool over the submitted `jobs` with dequeue order
`order`, accumulating the effects of `_consume` per job. -/
def runPool {J P : Type} (jobs : List J) (parse : J → Option P) (order : List Nat) :
    PoolRun P :=
  { results := (dequeued jobs order).filterMap (fun j => (consume parse j).result)
  , tasksDone := ((dequeued jobs order).filter (fun j => (consume parse j).taskDone)).length
  , deadWorkers := ((dequeued jobs order).filter (fun j => (consume parse j).died)).length }

theorem consume_result {J P : Type} (parse : J → Option P) (j : J) :
    (consume parse j).result = parse j := by
  cases h : parse j <;> simp [consume, h]

theorem consume_taskDone {J P : Type} (parse : J → Option P) (j : J) :
    (consume parse j).taskDone = (parse j).isSome := by
  cases h : parse j <;> simp [consume, h]

/-! ## Series.query (api.py 110-116)

```
def query(self, *series_ids):
    for i, C in enumerate(chunk(series_ids, 100)):
        self.queue.put(';'.join(C))
    self.queue.join()
    output = [self.results.get() for _ in range(i + 1)]
    return [s for d in output for s in d["series"] if 'series' in d]
```
-/

/-- A decoded `series/` response; the embedding keeps the one key
`Series.query` reads (`d["series"]`, a list of series records, here opaque
strings). -/
structure SeriesPayload where
  series : List String
deriving DecidableEq

/-- Result of a call to a batched query method. -/
inductive RunResult (α : Type) where
  /-- the call returned this value -/
  | ok (value : α)
  /-- the call blocks forever (in `queue.join()` or `results.get()`) -/
  | hang
  /-- the call raises `NameError`/`UnboundLocalError` -/
  | nameError
deriving DecidableEq

/-- The job strings `Series.query` enqueues: each chunk of 100 ids joined
with a semicolon (`self.queue.put(';'.join(C))`). -/
def seriesJobs (ids : List String) : List String :=
  (chunk ids 100).map (fun C => String.intercalate ";" C)

/-- Embedding of `Series.query(*series_ids)` under dequeue order `order`:
enqueue the chunk jobs, block in `queue.join()` until every enqueued job has
had `task_done()` called, evaluate `range(i + 1)` (raising when the loop body
never ran and `i` is unbound), drain `i + 1` results (blocking when fewer
ever arrive), and flatten the `"series"` lists of the drained payloads. -/
def seriesQueryRun (ids : List String) (parse : String → Option SeriesPayload)
    (order : List Nat) : RunResult (List String) :=
  let jobs := seriesJobs ids
  let run := runPool jobs parse order
  if run.tasksDone = jobs.length then
    if jobs.length = 0 then .nameError
    else if jobs.length ≤ run.results.length then
      .ok (((run.results.take jobs.length).map SeriesPayload.series).flatten)
    else .hang
  else .hang

/-- C1: evaluation at the failing input.  One job is submitted and its
network call raises; the worker records no outcome at all (the results table
stays empty, the worker dies in the `except` branch), and the query hangs in
`queue.join()` — the code does not record a Failure outcome. -/
theorem submitted_job_without_outcome :
    (runPool (seriesJobs ["SER.A"]) (fun _ => (none : Option SeriesPayload)) [0]).results
        = [] ∧
    (seriesJobs ["SER.A"]).length = 1 ∧
    seriesQueryRun ["SER.A"] (fun _ => (none : Option SeriesPayload)) [0] = .hang := by
  refine ⟨rfl, rfl, rfl⟩

/-- C2: evaluation at the failing input.  A batch of two jobs in which the
second fails and the first succeeds: only one of the two outcomes is ever
recorded and `Series.query` hangs instead of returning both outcomes. -/
theorem failure_isolation_violated :
    (seriesJobs (List.replicate 100 "x" ++ ["y"])).length = 2 ∧
    (runPool (seriesJobs (List.replicate 100 "x" ++ ["y"]))
        (fun s => if s = "y" then (none : Option SeriesPayload) else some ⟨["p"]⟩)
        [0, 1]).results.length = 1 ∧
    seriesQueryRun (List.replicate 100 "x" ++ ["y"])
        (fun s => if s = "y" then (none : Option SeriesPayload) else some ⟨["p"]⟩)
        [0, 1] = .hang := by
  refine ⟨rfl, rfl, rfl⟩

/-- C4: evaluation at the failing input.  An empty batch makes
`Series.query` raise (`range(i + 1)` reads the loop variable `i`, which was
never bound because `chunk` yielded nothing), instead of returning an empty
outcome sequence. -/
theorem empty_batch_raises :
    seriesQueryRun [] (fun _ => (none : Option SeriesPayload)) [] = .nameError := rfl

/-- C3 counterexample: the same two-job batch, with every job succeeding,
returns different sequences under the two dequeue orders — the returned
sequence is not sorted by submission index and is not reproducible across
schedules. -/
theorem completion_order_visible :
    seriesQueryRun (List.replicate 100 "x" ++ ["y"])
        (fun s => if s = "y" then some ⟨["q"]⟩ else some ⟨["p"]⟩) [0, 1] = .ok ["p", "q"] ∧
    seriesQueryRun (List.replicate 100 "x" ++ ["y"])
        (fun s => if s = "y" then some ⟨["q"]⟩ else some ⟨["p"]⟩) [1, 0] = .ok ["q", "p"]
    := by
  refine ⟨rfl, rfl⟩

theorem filterMap_getElem_range {α : Type} (l : List α) :
    (List.range l.length).filterMap (fun i => l[i]?) = l := by
  induction l with
  | nil => rfl
  | cons a l ih =>
    rw [List.length_cons, List.range_succ_eq_map, List.filterMap_cons, List.filterMap_map]
    have hc : ((fun i => (a :: l)[i]?) ∘ Nat.succ) = fun i => l[i]? := by
      funext i
      simp
    simp only [List.getElem?_cons_zero, hc, ih]

theorem dequeued_perm {α : Type} (l : List α) (order : List Nat)
    (h : order.Perm (List.range l.length)) :
    (dequeued l order).Perm l := by
  have h2 := h.filterMap (fun i => l[i]?)
  rwa [filterMap_getElem_range] at h2

theorem length_filterMap_all_some {α β : Type} (f : α → Option β) :
    ∀ (l : List α), (∀ x ∈ l, (f x).isSome = true) → (l.filterMap f).length = l.length := by
  intro l hl
  induction l with
  | nil => rfl
  | cons a l ih =>
    have ha := hl a (by simp)
    obtain ⟨b, hb⟩ := Option.isSome_iff_exists.mp ha
    rw [List.filterMap_cons, hb, List.length_cons, List.length_cons,
      ih (fun x hx => hl x (by simp [hx]))]

/-- C3 amended: when every job of a nonempty batch succeeds and each
submitted job is dequeued exactly once (the dequeue order is a permutation
of the submission indices), `Series.query` returns, and the sequence it
returns is the flattening of the payloads in completion order — a
permutation of the submitted jobs determined by the schedule, not the
submission order. -/
theorem series_query_returns_completion_order (ids : List String)
    (parse : String → Option SeriesPayload) (order : List Nat)
    (hperm : order.Perm (List.range (seriesJobs ids).length))
    (hok : ∀ j ∈ seriesJobs ids, (parse j).isSome = true)
    (hne : seriesJobs ids ≠ []) :
    (dequeued (seriesJobs ids) order).Perm (seriesJobs ids) ∧
    seriesQueryRun ids parse order =
      .ok ((((dequeued (seriesJobs ids) order).filterMap parse).map
        SeriesPayload.series).flatten) := by
  have hproc : (dequeued (seriesJobs ids) order).Perm (seriesJobs ids) :=
    dequeued_perm (seriesJobs ids) order hperm
  refine ⟨hproc, ?_⟩
  have hokp : ∀ j ∈ dequeued (seriesJobs ids) order, (parse j).isSome = true :=
    fun j hj => hok j (hproc.mem_iff.mp hj)
  have hres : (runPool (seriesJobs ids) parse order).results =
      (dequeued (seriesJobs ids) order).filterMap parse := by
    simp only [runPool, consume_result]
  have htd : (runPool (seriesJobs ids) parse order).tasksDone = (seriesJobs ids).length := by
    simp only [runPool, consume_taskDone]
    rw [List.filter_eq_self.mpr hokp, hproc.length_eq]
  have hreslen : (runPool (seriesJobs ids) parse order).results.length =
      (seriesJobs ids).length := by
    rw [hres, length_filterMap_all_some _ _ hokp, hproc.length_eq]
  have hne' : (seriesJobs ids).length ≠ 0 := by
    simpa using fun h => hne (List.length_eq_zero.mp h)
  unfold seriesQueryRun
  simp only [htd, if_true, hne', if_false, hreslen, le_refl, if_pos, ite_true, ite_false]
  rw [← hreslen, List.take_length, hres]

/-- C3 witness: applying the amended theorem to the concrete two-job batch
with reversed dequeue order. -/
theorem series_query_returns_completion_order_witness :
    ([1, 0].Perm (List.range (seriesJobs (List.replicate 100 "x" ++ ["y"])).length)) ∧
    (seriesJobs (List.replicate 100 "x" ++ ["y"]) ≠ []) ∧
    seriesQueryRun (List.replicate 100 "x" ++ ["y"])
        (fun s => if s = "y" then some ⟨["q"]⟩ else some ⟨["p"]⟩) [1, 0] = .ok ["q", "p"] := by
  refine ⟨by decide, by decide, ?_⟩
  have h := (series_query_returns_completion_order (List.replicate 100 "x" ++ ["y"])
      (fun s => if s = "y" then some ⟨["q"]⟩ else some ⟨["p"]⟩) [1, 0]
      (by decide) (by decide) (by decide)).2
  rw [h]
  rfl

/-! ## Updates.query (api.py 217-235)

```
poll = self.get(category_id=category_id, deep=deep, rows=1, firstrow=0)
n = rows or poll['data']['rows_available']
params = {"category_id": category_id, "deep": deep, "rows": 10000}
for page in range(int(np.ceil(n / 10000.))):
    page_params = dict(params)
    first = page * 10000
    page_params.update({"firstrow": first})
    if first + 10000 > rows:
        rows = rows - first
        page_params.update({"rows": rows})
    self.queue.put(page_params)
```
-/

/-- One page job enqueued by `Updates.query`: the `firstrow`/`rows` entries of
`page_params` (the `category_id` and `deep` entries are copied verbatim from
the request into every page and are omitted). -/
structure UpdateJob where
  firstrow : Int
  rows : Int
deriving DecidableEq

/-- The paging loop of `Updates.query`, with the mutable local `rows`
threaded as the second argument (note that the source mutates `rows` in the
clipping branch, so later iterations compare against the mutated value). -/
def updatesLoopAux : List Nat → Int → List UpdateJob
  | [], _ => []
  | page :: rest, rows =>
    if (page : Int) * 10000 + 10000 > rows then
      { firstrow := (page : Int) * 10000, rows := rows - (page : Int) * 10000 } ::
        updatesLoopAux rest (rows - (page : Int) * 10000)
    else
      { firstrow := (page : Int) * 10000, rows := 10000 } :: updatesLoopAux rest rows

/-- The jobs `Updates.query(rows=..., ...)` enqueues.  `n = rows or
poll['data']['rows_available']` (an `int` is falsy exactly when it is 0), and
the page count is `int(np.ceil(n / 10000.))`, which for the embedded integer
inputs equals `(max n 0 + 9999) / 10000` in Nat arithmetic. -/
def updatesQueryJobs (rows : Int) (rows_available : Int) : List UpdateJob :=
  updatesLoopAux
    (List.range (((if rows = 0 then rows_available else rows).toNat + 9999) / 10000))
    rows

theorem updatesLoopAux_eq (R : Int) :
    ∀ (k a : Nat),
      (∀ p : Nat, a ≤ p → p + 1 < a + k → 10000 * ((p : Int) + 1) ≤ R) →
      R ≤ 10000 * ((a : Int) + (k : Int)) →
      updatesLoopAux (List.range' a k) R =
        (List.range' a k).map
          (fun p : Nat => ⟨(p : Int) * 10000, min 10000 (R - (p : Int) * 10000)⟩) := by
  intro k
  induction k with
  | zero => intro a h1 h2; rfl
  | succ k ih =>
    intro a h1 h2
    rw [List.range'_succ]
    simp only [updatesLoopAux, List.map_cons]
    cases k with
    | zero =>
      have hrest : List.range' (a + 1) 0 = [] := rfl
      rw [hrest]
      by_cases hc : (a : Int) * 10000 + 10000 > R
      · rw [if_pos hc,
          show min 10000 (R - (a : Int) * 10000) = R - (a : Int) * 10000 by omega]
        rfl
      · rw [if_neg hc,
          show min 10000 (R - (a : Int) * 10000) = 10000 by omega]
        rfl
    | succ k' =>
      have hle : 10000 * ((a : Int) + 1) ≤ R := h1 a le_rfl (by omega)
      have hc : ¬((a : Int) * 10000 + 10000 > R) := by omega
      rw [if_neg hc,
        show min 10000 (R - (a : Int) * 10000) = 10000 by omega,
        ih (a + 1) (fun p hp1 hp2 => h1 p (by omega) (by omega))
          (by push_cast at h2 ⊢; omega)]

theorem sum_min_range_10000 (T : Int) (n : Nat) (h0 : 0 ≤ T)
    (h1 : T ≤ 10000 * (n : Int)) (h2 : 10000 * (n : Int) < T + 10000) :
    ((List.range n).map (fun p : Nat => min 10000 (T - (p : Int) * 10000))).sum = T := by
  cases n with
  | zero =>
    simp only [List.range_zero, List.map_nil, List.sum_nil]
    push_cast at h1
    omega
  | succ k =>
    rw [List.range_succ, List.map_append, List.sum_append]
    have hconst : ∀ p ∈ List.range k,
        (fun p : Nat => min 10000 (T - (p : Int) * 10000)) p
          = (fun _ : Nat => (10000 : Int)) p := by
      intro p hp
      rw [List.mem_range] at hp
      simp only
      omega
    rw [List.map_congr_left hconst, List.map_const', List.sum_replicate, List.length_range,
      nsmul_eq_mul]
    simp only [List.map_cons, List.map_nil, List.sum_cons, List.sum_nil]
    push_cast at h1 h2 ⊢
    omega

/-- C5: for every row-limited Updates query (requested rows ≥ 1), the paging
loop creates ceil(requestedRows / 10000) jobs; page p requests rows starting
at firstrow = 10000·p with row count min(10000, requestedRows − 10000·p), so
only the final page is clipped and the page row counts sum to exactly the
requested total — consecutive pages covering [0, requestedRows) with no
overshoot. -/
theorem updates_paging (rows rows_available : Int) (h : 1 ≤ rows) :
    updatesQueryJobs rows rows_available =
      (List.range ((rows.toNat + 9999) / 10000)).map
        (fun p : Nat => ⟨(p : Int) * 10000, min 10000 (rows - (p : Int) * 10000)⟩) ∧
    (updatesQueryJobs rows rows_available).length = (rows.toNat + 9999) / 10000 ∧
    ((updatesQueryJobs rows rows_available).map UpdateJob.rows).sum = rows := by
  have hn : (if rows = 0 then rows_available else rows) = rows := if_neg (by omega)
  have h1 : ∀ p : Nat, 0 ≤ p → p + 1 < 0 + (rows.toNat + 9999) / 10000 →
      10000 * ((p : Int) + 1) ≤ rows := by
    intro p hp1 hp2
    omega
  have h2 : rows ≤ 10000 * (((0 : Nat) : Int) + (((rows.toNat + 9999) / 10000 : Nat) : Int)) := by
    omega
  have hmain : updatesQueryJobs rows rows_available =
      (List.range ((rows.toNat + 9999) / 10000)).map
        (fun p : Nat => ⟨(p : Int) * 10000, min 10000 (rows - (p : Int) * 10000)⟩) := by
    unfold updatesQueryJobs
    rw [hn, List.range_eq_range',
      updatesLoopAux_eq rows ((rows.toNat + 9999) / 10000) 0 h1 h2,
      ← List.range_eq_range']
  refine ⟨hmain, ?_, ?_⟩
  · rw [hmain, List.length_map, List.length_range]
  · rw [hmain, List.map_map]
    have hcomp : (UpdateJob.rows ∘ fun p : Nat =>
        (⟨(p : Int) * 10000, min 10000 (rows - (p : Int) * 10000)⟩ : UpdateJob)) =
        fun p : Nat => min 10000 (rows - (p : Int) * 10000) := rfl
    rw [hcomp]
    exact sum_min_range_10000 rows ((rows.toNat + 9999) / 10000) (by omega) (by omega) (by omega)

/-- C5 witness: requested rows = 25,000 yields exactly the three jobs
requesting rows [0,10000), [10000,20000), [20000,25000). -/
theorem updates_paging_witness :
    (1 : Int) ≤ 25000 ∧
    updatesQueryJobs 25000 0 =
      [⟨0, 10000⟩, ⟨10000, 10000⟩, ⟨20000, 5000⟩] := by
  refine ⟨by decide, ?_⟩
  have hmain := (updates_paging 25000 0 (by decide)).1
  rw [hmain]
  rfl

/-! ## Search.query and Search.clean_search_params (api.py 241-312)

`query` first calls `clean_search_params`, whose
`assert t in ["series_id", "name", "last_updated"]` raises `AssertionError`
("Invalid search term") before any `self.get` call and before anything is
put on `self.queue`.  When `rows_per_page` is `0` or `'all'`, `query` probes
with `rows_per_page=1`, reads `numFound`, and enqueues
`pages = int(np.ceil(total / 7500.))` page jobs:
```
for page in range(pages):
    rows = chunksize            # 7500, reset every iteration
    first = page * rows
    if first + rows > total:
        rows = total - first
    page_params = dict(params)
    page_params.update({"page_num": page, "rows_per_page": rows})
    self.queue.put(page_params)
```
Otherwise it performs one direct `self.get` with the caller's paging. -/

def valid_search_terms : List String := ["series_id", "name", "last_updated"]

/-- Python `v.strip('"')`: remove leading and trailing double-quote
characters. -/
def stripQuotes (v : String) : String :=
  ⟨((v.data.dropWhile (fun c => c = '"')).reverse.dropWhile (fun c => c = '"')).reverse⟩

/-- The value-normalisation step of `clean_search_params`.  For
`series_id`/`name`: `re.match(re.escape('^"{}"$'.format(v.strip('"'))), v)`
matches iff `v` literally starts with the escaped text, i.e. iff `v` starts
with `^"` + stripped value + `"$`; otherwise the value is wrapped in double
quotes.  For `last_updated` the source formats a 2-element iterable of dates
via `pd.to_datetime` (external transport/format glue, out of the engine's
scope); the embedding passes the value through. -/
def cleanSearchValue (t v : String) : String :=
  if t = "series_id" ∨ t = "name" then
    if v.startsWith ("^\"" ++ stripQuotes v ++ "\"$") then v
    else "\"" ++ v ++ "\""
  else v

/-- Embedding of `Search.clean_search_params` (api.py 295-312): the assert
on the search term, then value normalisation. -/
def clean_search_params (search_term search_value : String) :
    Except String (String × String) :=
  if search_term ∈ valid_search_terms then
    .ok (search_term, cleanSearchValue search_term search_value)
  else
    .error "Invalid search term"

/-- `rows_per_page` may be an int or the string `'all'` in the source. -/
inductive RowsPerPage where
  | num (n : Int)
  | str (s : String)
deriving DecidableEq

/-- The fetch-all condition `(rows_per_page == 0) or (rows_per_page == 'all')`. -/
def isFetchAll : RowsPerPage → Bool
  | .num n => n == 0
  | .str s => s == "all"

/-- One parameter bundle passed to `self.get` or put on `self.queue` by
`Search.query` (the four keys of `page_params`). -/
structure SearchJob where
  search_term : String
  search_value : String
  page_num : Int
  rows_per_page : RowsPerPage
deriving DecidableEq

/-- The page jobs the fetch-all branch of `Search.query` enqueues, given the
probed total match count (`numFound`).  The page count
`int(np.ceil(total / float(7500)))` equals `(total + 7499) / 7500` in Nat
arithmetic. -/
def searchAllJobs (t v : String) (total : Nat) : List SearchJob :=
  (List.range ((total + 7499) / 7500)).map (fun page : Nat =>
    { search_term := t, search_value := v, page_num := (page : Int)
    , rows_per_page := .num (if (page : Int) * 7500 + 7500 > (total : Int)
        then (total : Int) - (page : Int) * 7500 else 7500) })

/-- The `rows_per_page` of a job as an integer (every job built by the
fetch-all loop carries a numeric value). -/
def SearchJob.numRows (j : SearchJob) : Int :=
  match j.rows_per_page with
  | .num r => r
  | .str _ => 0

/-- Observable effects of one call to `Search.query`: the parameter bundles
of the direct `self.get` calls, the jobs put on `self.queue`, and the
assertion error, if any. -/
structure SearchTrace where
  netCalls : List SearchJob
  enqueued : List SearchJob
  planError : Option String
deriving DecidableEq

/-- Embedding of `Search.query(search_term, search_value, rows_per_page,
page_num)`; `numFound` is the total match count the remote service reports
to the probe. -/
def searchQueryRun (search_term search_value : String) (rows_per_page : RowsPerPage)
    (page_num : Int) (numFound : Nat) : SearchTrace :=
  match clean_search_params search_term search_value with
  | .error e => { netCalls := [], enqueued := [], planError := some e }
  | .ok (t, v) =>
    if isFetchAll rows_per_page then
      { netCalls := [⟨t, v, 1, .num 1⟩]
      , enqueued := searchAllJobs t v numFound
      , planError := none }
    else
      { netCalls := [⟨t, v, page_num, rows_per_page⟩]
      , enqueued := []
      , planError := none }

/-- C8: a Search query with a search_term outside the valid set raises the
planner assertion synchronously: the returned trace records the error, no
job was enqueued, and no network call was made. -/
theorem invalid_search_term_sync (t v : String) (mode : RowsPerPage)
    (page_num : Int) (numFound : Nat) (h : t ∉ valid_search_terms) :
    searchQueryRun t v mode page_num numFound =
      { netCalls := [], enqueued := [], planError := some "Invalid search term" } := by
  unfold searchQueryRun clean_search_params
  rw [if_neg h]

/-- C8 witness: the invalid term "category" errors with nothing enqueued
and no network call. -/
theorem invalid_search_term_sync_witness :
    ("category" ∉ valid_search_terms) ∧
    searchQueryRun "category" "x" (.num 10) 1 0 =
      { netCalls := [], enqueued := [], planError := some "Invalid search term" } :=
  ⟨by decide, invalid_search_term_sync "category" "x" (.num 10) 1 0 (by decide)⟩

theorem searchAllJobs_eq (t v : String) (total : Nat) :
    searchAllJobs t v total =
      (List.range ((total + 7499) / 7500)).map (fun p : Nat =>
        { search_term := t, search_value := v, page_num := (p : Int),
          rows_per_page := .num (min 7500 ((total : Int) - (p : Int) * 7500)) }) := by
  unfold searchAllJobs
  apply List.map_congr_left
  intro p hp
  have hmin : (if (p : Int) * 7500 + 7500 > (total : Int)
      then (total : Int) - (p : Int) * 7500 else 7500)
      = min 7500 ((total : Int) - (p : Int) * 7500) := by
    split <;> omega
  rw [hmin]

theorem sum_min_range_7500 (T : Int) (n : Nat) (h0 : 0 ≤ T)
    (h1 : T ≤ 7500 * (n : Int)) (h2 : 7500 * (n : Int) < T + 7500) :
    ((List.range n).map (fun p : Nat => min 7500 (T - (p : Int) * 7500))).sum = T := by
  cases n with
  | zero =>
    simp only [List.range_zero, List.map_nil, List.sum_nil]
    push_cast at h1
    omega
  | succ k =>
    rw [List.range_succ, List.map_append, List.sum_append]
    have hconst : ∀ p ∈ List.range k,
        (fun p : Nat => min 7500 (T - (p : Int) * 7500)) p
          = (fun _ : Nat => (7500 : Int)) p := by
      intro p hp
      rw [List.mem_range] at hp
      simp only
      omega
    rw [List.map_congr_left hconst, List.map_const', List.sum_replicate, List.length_range,
      nsmul_eq_mul]
    simp only [List.map_cons, List.map_nil, List.sum_cons, List.sum_nil]
    push_cast at h1 h2 ⊢
    omega

/-- C7: a fetch-all Search query (rows_per_page 0 or 'all') with a valid
search term performs a single-result probe (rows_per_page = 1), then creates
ceil(total / 7500) jobs; page p requests min(7500, total − 7500·p) results,
so the page sizes are 7,500 except the last, which is clipped to total minus
the preceding pages' rows, and the sizes sum to exactly the probed total. -/
theorem search_fetch_all (t v : String) (mode : RowsPerPage) (page_num : Int)
    (total : Nat) (hterm : t ∈ valid_search_terms) (hall : isFetchAll mode = true) :
    (searchQueryRun t v mode page_num total).planError = none ∧
    (searchQueryRun t v mode page_num total).netCalls =
      [⟨t, cleanSearchValue t v, 1, .num 1⟩] ∧
    (searchQueryRun t v mode page_num total).enqueued =
      (List.range ((total + 7499) / 7500)).map (fun p : Nat =>
        { search_term := t, search_value := cleanSearchValue t v, page_num := (p : Int),
          rows_per_page := .num (min 7500 ((total : Int) - (p : Int) * 7500)) }) ∧
    (searchQueryRun t v mode page_num total).enqueued.length = (total + 7499) / 7500 ∧
    ((searchQueryRun t v mode page_num total).enqueued.map SearchJob.numRows).sum
      = (total : Int) := by
  have hrun : searchQueryRun t v mode page_num total =
      { netCalls := [⟨t, cleanSearchValue t v, 1, .num 1⟩]
      , enqueued := searchAllJobs t (cleanSearchValue t v) total
      , planError := none } := by
    unfold searchQueryRun clean_search_params
    rw [if_pos hterm]
    simp only [hall, if_true]
  rw [hrun, searchAllJobs_eq]
  refine ⟨rfl, rfl, rfl, by rw [List.length_map, List.length_range], ?_⟩
  rw [List.map_map]
  have hcomp : (SearchJob.numRows ∘ fun p : Nat =>
      ({ search_term := t, search_value := cleanSearchValue t v, page_num := (p : Int),
         rows_per_page := .num (min 7500 ((total : Int) - (p : Int) * 7500)) } : SearchJob)) =
      fun p : Nat => min 7500 ((total : Int) - (p : Int) * 7500) := rfl
  rw [hcomp]
  exact sum_min_range_7500 (total : Int) ((total + 7499) / 7500)
    (by omega) (by omega) (by omega)

/-- C7 witness: fetch-all with probed total 16,000 probes with
rows_per_page = 1 and enqueues 3 jobs whose sizes 7500, 7500, 1000 sum to
the total. -/
theorem search_fetch_all_witness :
    ("name" ∈ valid_search_terms) ∧ isFetchAll (.num 0) = true ∧
    (searchQueryRun "name" "coal" (.num 0) 1 16000).netCalls =
      [⟨"name", "\"coal\"", 1, .num 1⟩] ∧
    (searchQueryRun "name" "coal" (.num 0) 1 16000).enqueued.length = 3 ∧
    ((searchQueryRun "name" "coal" (.num 0) 1 16000).enqueued.map
      SearchJob.numRows).sum = 16000 := by
  refine ⟨by decide, by decide, ?_, ?_, ?_⟩
  · have h := (search_fetch_all "name" "coal" (.num 0) 1 16000 (by decide) rfl).2.1
    rw [h]
    rfl
  · have h := (search_fetch_all "name" "coal" (.num 0) 1 16000 (by decide) rfl).2.2.2.1
    rw [h]
  · have h := (search_fetch_all "name" "coal" (.num 0) 1 16000 (by decide) rfl).2.2.2.2
    rw [h]
    rfl

/-! ## BaseQuery.__init__ and BaseQuery.get (api.py 45-57, 71-76)

`__init__` stores `default_params = {"api_key": api_key, "out": output}`
and, when the subclass defines `parse`, starts exactly `consumers` worker
threads.  `get` builds `params = dict(self.default_params)` (a copy), then
`params.update(kwargs)` and issues the request with `params`.

Python dicts are embedded as association lists with first-match lookup;
`update`/item assignment replaces the value in place for a present key and
appends a new entry otherwise. -/

/-- Dict lookup, first match wins. -/
def dictGet : List (String × String) → String → Option String
  | [], _ => none
  | kv :: rest, k => if kv.1 == k then some kv.2 else dictGet rest k

/-- Dict item assignment `d[k] = v`: replace in place when the key is
present, append otherwise. -/
def dictSet (d : List (String × String)) (k v : String) : List (String × String) :=
  if d.any (fun kv => kv.1 == k) then
    d.map (fun kv => if kv.1 == k then (k, v) else kv)
  else
    d ++ [(k, v)]

/-- `d.update(kw)`: assign every key of `kw` into `d` in order. -/
def dictUpdate (d kw : List (String × String)) : List (String × String) :=
  kw.foldl (fun acc kv => dictSet acc kv.1 kv.2) d

/-- Engine state built by `BaseQuery.__init__`: key, default params, and the
list of worker threads (`self.consumers`), created only when the subclass
has a `parse` method. -/
structure BaseQuery where
  api_key : String
  default_params : List (String × String)
  consumers : List Nat
deriving DecidableEq

/-- Embedding of `BaseQuery.__init__(api_key, output="json", consumers=4)`. -/
def BaseQuery.init (api_key output : String) (has_parse : Bool) (consumers : Nat) :
    BaseQuery :=
  { api_key := api_key
  , default_params := [("api_key", api_key), ("out", output)]
  , consumers := if has_parse then List.range consumers else [] }

/-- Embedding of `BaseQuery.get(**kwargs)`: the parameter bundle passed to
`requests.get` (a copy of `default_params` updated with `kwargs`), paired
with the engine state after the call. -/
def BaseQuery.get (self : BaseQuery) (kwargs : List (String × String)) :
    List (String × String) × BaseQuery :=
  (dictUpdate self.default_params kwargs, self)

theorem dictGet_map_set_same (k v : String) :
    ∀ d : List (String × String), d.any (fun kv => kv.1 == k) = true →
      dictGet (d.map (fun kv => if kv.1 == k then (k, v) else kv)) k = some v := by
  intro d
  induction d with
  | nil => intro hpres; simp at hpres
  | cons a d ih =>
    intro hpres
    simp only [List.map_cons]
    by_cases ha : (a.1 == k) = true
    · rw [if_pos ha]
      simp [dictGet]
    · rw [if_neg ha]
      rw [show dictGet (a :: d.map (fun kv => if kv.1 == k then (k, v) else kv)) k
          = dictGet (d.map (fun kv => if kv.1 == k then (k, v) else kv)) k from by
        simp [dictGet, ha]]
      apply ih
      simp only [List.any_cons, ha, Bool.false_or] at hpres
      exact hpres

theorem dictGet_map_set_other (k v k' : String) (hne : k' ≠ k) :
    ∀ d : List (String × String),
      dictGet (d.map (fun kv => if kv.1 == k then (k, v) else kv)) k' = dictGet d k' := by
  intro d
  induction d with
  | nil => rfl
  | cons a d ih =>
    simp only [List.map_cons]
    by_cases ha : (a.1 == k) = true
    · rw [if_pos ha]
      have h1 : (k == k') = false := by
        simp only [beq_eq_false_iff_ne, ne_eq]
        exact fun hk => hne hk.symm
      have h2 : (a.1 == k') = false := by
        simp only [beq_iff_eq] at ha
        simp only [beq_eq_false_iff_ne, ne_eq, ha]
        exact fun hk => hne hk.symm
      simp only [dictGet, h1, h2, Bool.false_eq_true, if_false, ih]
    · rw [if_neg ha]
      simp only [dictGet, ih]

theorem dictGet_append_one_same (k v : String) :
    ∀ d : List (String × String), d.any (fun kv => kv.1 == k) = false →
      dictGet (d ++ [(k, v)]) k = some v := by
  intro d
  induction d with
  | nil => intro h; simp [dictGet]
  | cons a d ih =>
    intro h
    simp only [List.any_cons, Bool.or_eq_false_iff] at h
    simp only [List.cons_append, dictGet, h.1, Bool.false_eq_true, if_false]
    exact ih h.2

theorem dictGet_append_one_other (k v k' : String) (hne : k' ≠ k) :
    ∀ d : List (String × String), dictGet (d ++ [(k, v)]) k' = dictGet d k' := by
  intro d
  induction d with
  | nil =>
    have h1 : (k == k') = false := by
      simp only [beq_eq_false_iff_ne, ne_eq]
      exact fun hk => hne hk.symm
    simp [dictGet, h1]
  | cons a d ih =>
    simp only [List.cons_append, dictGet]
    split
    · rfl
    · exact ih

theorem dictGet_dictSet (d : List (String × String)) (k v k' : String) :
    dictGet (dictSet d k v) k' = if k' = k then some v else dictGet d k' := by
  by_cases hpres : d.any (fun kv => kv.1 == k) = true
  · rw [dictSet, if_pos hpres]
    by_cases hk : k' = k
    · subst hk
      rw [if_pos rfl]
      exact dictGet_map_set_same k' v d hpres
    · rw [if_neg hk]
      exact dictGet_map_set_other k v k' hk d
  · rw [dictSet, if_neg hpres]
    rw [Bool.not_eq_true] at hpres
    by_cases hk : k' = k
    · subst hk
      rw [if_pos rfl]
      exact dictGet_append_one_same k' v d hpres
    · rw [if_neg hk]
      exact dictGet_append_one_other k v k' hk d

theorem dictGet_eq_none_of_not_mem (k : String) :
    ∀ kw : List (String × String), k ∉ kw.map Prod.fst → dictGet kw k = none := by
  intro kw
  induction kw with
  | nil => intro h; rfl
  | cons a kw ih =>
    intro h
    simp only [List.map_cons, List.mem_cons] at h
    push_neg at h
    have ha : (a.1 == k) = false := by
      simp only [beq_eq_false_iff_ne, ne_eq]
      exact fun hk => h.1 hk.symm
    simp only [dictGet, ha, Bool.false_eq_true, if_false]
    exact ih h.2

theorem dictGet_dictUpdate :
    ∀ (kw d : List (String × String)), (kw.map Prod.fst).Nodup → ∀ k,
      dictGet (dictUpdate d kw) k =
        match dictGet kw k with
        | some v => some v
        | none => dictGet d k := by
  intro kw
  induction kw with
  | nil => intro d hnd k; rfl
  | cons a kw ih =>
    intro d hnd k
    simp only [List.map_cons, List.nodup_cons] at hnd
    rw [show dictUpdate d (a :: kw) = dictUpdate (dictSet d a.1 a.2) kw from rfl]
    rw [ih (dictSet d a.1 a.2) hnd.2 k, dictGet_dictSet]
    by_cases hk : k = a.1
    · have hak : (a.1 == k) = true := by
        simp only [beq_iff_eq]
        exact hk.symm
      have hnone : dictGet kw a.1 = none :=
        dictGet_eq_none_of_not_mem a.1 kw hnd.1
      simp [dictGet, hnone, hak, hk]
    · have ha : (a.1 == k) = false := by
        simp only [beq_eq_false_iff_ne, ne_eq]
        exact fun h => hk h.symm
      simp only [dictGet, ha, Bool.false_eq_true, if_false, if_neg hk]

/-- C10: BaseQuery.get issues the request with the engine's default
parameters overlaid by the caller's keyword arguments — caller values take
precedence for every key — and the call leaves the engine state, in
particular self.default_params, unchanged (the source updates a copy:
`params = dict(self.default_params)`). -/
theorem base_query_get_params (q : BaseQuery) (kwargs : List (String × String))
    (hkw : (kwargs.map Prod.fst).Nodup) :
    (q.get kwargs).2 = q ∧
    (q.get kwargs).2.default_params = q.default_params ∧
    ∀ k, dictGet (q.get kwargs).1 k =
      match dictGet kwargs k with
      | some v => some v
      | none => dictGet q.default_params k := by
  refine ⟨rfl, rfl, ?_⟩
  intro k
  exact dictGet_dictUpdate kwargs q.default_params hkw k

/-- C10 witness: overriding "out" and adding "series_id" while "api_key"
falls through from the defaults. -/
theorem base_query_get_params_witness :
    (([("out", "xml"), ("series_id", "S1")].map Prod.fst).Nodup) ∧
    dictGet ((BaseQuery.init "KEY" "json" true 4).get
      [("out", "xml"), ("series_id", "S1")]).1 "out" = some "xml" ∧
    dictGet ((BaseQuery.init "KEY" "json" true 4).get
      [("out", "xml"), ("series_id", "S1")]).1 "api_key" = some "KEY" ∧
    ((BaseQuery.init "KEY" "json" true 4).get
      [("out", "xml"), ("series_id", "S1")]).2.default_params
      = [("api_key", "KEY"), ("out", "json")] := by
  refine ⟨by decide, ?_, ?_, by decide⟩
  · have h := (base_query_get_params (BaseQuery.init "KEY" "json" true 4)
      [("out", "xml"), ("series_id", "S1")] (by decide)).2.2 "out"
    rw [h]
    rfl
  · have h := (base_query_get_params (BaseQuery.init "KEY" "json" true 4)
      [("out", "xml"), ("series_id", "S1")] (by decide)).2.2 "api_key"
    rw [h]
    rfl

/-- C9: evaluation at the failing input.  An engine constructed with
consumers = 4 (and a `parse` method) creates exactly 4 workers at
construction, but the worker that processes a failing job is destroyed: its
`except` branch calls the undefined name `warn`, and the resulting
`NameError` terminates the thread, shrinking the pool. -/
theorem worker_pool_death :
    (BaseQuery.init "KEY" "json" true 4).consumers.length = 4 ∧
    (runPool ["JOB"] (fun _ => (none : Option SeriesPayload)) [0]).deadWorkers = 1 := by
  refine ⟨rfl, rfl⟩
